import Mathlib

/-!
# Verification of the MarkMasterSheetConsolidator core pipeline

A shallow embedding, in Lean 4, of the Go sources of the
MarkMasterSheetConsolidator repository:

* `internal/excel/reader.go` — `ReadStudentData`, `FindStudentInMasterSheet`;
* the excel writer — `BatchUpdateMasterSheet`, `ValidateMasterSheet`,
  `SaveMasterSheetCopy`;
* the processor — `ProcessFiles`, `processFilesConcurrently`,
  `processFileWithRetries`, `findExcelFiles`;
* `pkg/models` — `StudentData`, `ProcessingSummary`, `IsValidStudentID`,
  `GetMarkCount`.

Spreadsheet cell I/O (the excelize library) is an external capability of the
core: a student workbook is modelled as its sheet list together with a
cell-reading function, and the master workbook as its sheet list, the rows
returned by `GetRows`, and an association list of the numeric cells written by
`SetCellFloat`.  Goroutines plus a mutex around every summary update make each
per-file update atomic, so the concurrent phase is modelled as a fold over the
discovered files; completion order is irrelevant to every property proved here.
Marks (Go `float64` values parsed from decimal text and compared against the
literals 0, 100 and -1) are modelled as exact decimals (`Dec`), with `Dec.toRat`
giving their rational value.
-/

set_option maxHeartbeats 1000000

namespace MarkMaster

/-! ## String utilities (models of the Go standard library calls) -/

/-- ASCII whitespace, as recognised by `strings.TrimSpace` on the data that
occurs in spreadsheet cells. -/
def isSpaceChar (c : Char) : Bool :=
  c = ' ' || c = '\t' || c = '\n' || c = '\r'

/-- Model of Go `strings.TrimSpace`: drop whitespace from both ends. -/
def trimSpace (s : String) : String :=
  String.mk (((s.data.dropWhile isSpaceChar).reverse.dropWhile isSpaceChar).reverse)

/-- Model of Go `strings.ToLower` (ASCII letters). -/
def lowerString (s : String) : String :=
  String.mk (s.data.map Char.toLower)

/-- Helper for `filepathExt`: walk the reversed character list; stop at the
first dot (collecting the extension) or at a path separator. -/
def filepathExtAux : List Char → List Char → String
  | [], _ => ""
  | c :: rest, acc =>
    if c = '.' then String.mk ('.' :: acc)
    else if c = '/' || c = '\\' then ""
    else filepathExtAux rest (c :: acc)

/-- Model of Go `filepath.Ext`: the suffix beginning at the final dot of the
final path element, or `""` when there is none. -/
def filepathExt (path : String) : String :=
  filepathExtAux path.data.reverse []

/-- Decimal digit test. -/
def isDigitChar (c : Char) : Bool :=
  '0' ≤ c && c ≤ '9'

/-- Value of a list of decimal digit characters. -/
def digitsToNat (l : List Char) : ℕ :=
  l.foldl (fun a c => a * 10 + (c.toNat - 48)) 0

/-- The numeric values flowing through the pipeline (Go `float64` values that
were parsed from decimal cell text): the exact decimal `num / 10 ^ exp`.  The
representation is not normalised; `Dec.toRat` gives the value and every
comparison the Go code performs is done through `Dec.blt`. -/
structure Dec where
  num : ℤ
  exp : ℕ
deriving DecidableEq, Repr

/-- Embed an integer constant (the literals `0`, `100` and `-1` the Go code
compares marks against). -/
def Dec.ofInt (n : ℤ) : Dec := ⟨n, 0⟩

/-- The strict order `a < b` on decimal values, by cross multiplication. -/
def Dec.blt (a b : Dec) : Bool :=
  decide (a.num * (10 : ℤ) ^ b.exp < b.num * (10 : ℤ) ^ a.exp)

/-- The rational value of a decimal. -/
def Dec.toRat (a : Dec) : ℚ :=
  (a.num : ℚ) / (10 : ℚ) ^ a.exp

/-- Unsigned part of `parseFloat`: digits, optionally followed by a dot and
more digits; at least one digit in total. -/
def parseUnsignedFloat (l : List Char) : Option Dec :=
  let ip := l.takeWhile isDigitChar
  match l.dropWhile isDigitChar with
  | [] => if ip.isEmpty then none else some ⟨digitsToNat ip, 0⟩
  | '.' :: fp =>
    if fp.all isDigitChar && !(ip.isEmpty && fp.isEmpty) then
      some ⟨digitsToNat (ip ++ fp), fp.length⟩
    else none
  | _ => none

/-- Model of Go `strconv.ParseFloat` restricted to plain decimal notation
(optional sign, digits, optional fractional part); the exponent, hexadecimal
and infinity/NaN forms accepted by Go do not occur in mark cells. -/
def parseFloat (s : String) : Option Dec :=
  match s.data with
  | '-' :: rest => (parseUnsignedFloat rest).map (fun d => ⟨-d.num, d.exp⟩)
  | '+' :: rest => parseUnsignedFloat rest
  | l => parseUnsignedFloat l

/-! ## Association lists (model of the Go maps keyed by cell address) -/

/-- Go map read `m[k]`. -/
def assocGet {α : Type} : List (String × α) → String → Option α
  | [], _ => none
  | (k', v') :: rest, k => if k' = k then some v' else assocGet rest k

/-- Go map write `m[k] = v` (replaces an existing binding). -/
def assocSet {α : Type} : List (String × α) → String → α → List (String × α)
  | [], k, v => [(k, v)]
  | (k', v') :: rest, k, v =>
    if k' = k then (k, v) :: rest else (k', v') :: assocSet rest k v

/-- Results of fallible operations compare decidably (used to evaluate the
embedded pipeline on concrete inputs). -/
instance decEqExcept {ε α : Type} [DecidableEq ε] [DecidableEq α] :
    DecidableEq (Except ε α) := fun x y =>
  match x, y with
  | .ok v, .ok w => if h : v = w then .isTrue (by rw [h]) else .isFalse (by simp [h])
  | .error v, .error w => if h : v = w then .isTrue (by rw [h]) else .isFalse (by simp [h])
  | .ok _, .error _ => .isFalse (by simp)
  | .error _, .ok _ => .isFalse (by simp)

/-! ## Configuration (`internal/config`) -/

/-- The `ExcelConfig` fields the core reads. -/
structure ExcelConfig where
  studentWorksheetName : String
  masterWorksheetName : String
  studentIDCell : String
  markCells : List String
  masterColumns : List String

/-- The `ProcessingConfig` fields the core reads. -/
structure ProcessingConfig where
  maxConcurrentFiles : ℕ
  backupEnabled : Bool
  skipInvalidFiles : Bool
  retryAttempts : ℕ

/-! ## Data model (`pkg/models`) -/

/-- Model of `models.StudentData`: identifier, source path and the marks map.  Marks are
an association list from mark-cell address to value; the reader stores `-1`
for an empty cell (the source's sentinel for a missing mark). -/
structure StudentData where
  studentID : String
  filePath : String
  marks : List (String × Dec)
deriving DecidableEq, Repr

/-- Model of `models.StudentData.GetMarkCount`: number of non-negative marks. -/
def StudentData.getMarkCount (s : StudentData) : ℕ :=
  (s.marks.filter (fun p => !(Dec.blt p.2 (Dec.ofInt 0)))).length

/-- Alphanumeric character test from `models.StudentData.IsValidStudentID`. -/
def isAlphanumericChar (c : Char) : Bool :=
  ('a' ≤ c && c ≤ 'z') || ('A' ≤ c && c ≤ 'Z') || ('0' ≤ c && c ≤ '9')

/-- Model of `models.StudentData.IsValidStudentID` on the identifier string: non-empty
and purely alphanumeric. -/
def isValidStudentID (s : String) : Bool :=
  !(s = "") && s.data.all isAlphanumericChar

/-- The extraction error taxonomy: the `FileProcessingError` stages and the
`ValidationError` cases produced by `ReadStudentData`. -/
inductive ExtractError where
  /-- Go `FileProcessingError` at stage validation: unsupported file extension. -/
  | unsupportedFormat
  /-- Go `FileProcessingError` at stage opening: `excelize.OpenFile` failed. -/
  | openFailed
  /-- Go `FileProcessingError` at stage worksheet validation. -/
  | worksheetNotFound (name : String)
  /-- Go `FileProcessingError` at stage student ID reading. -/
  | idReadFailed
  /-- Go `ValidationError`: student ID empty after trimming. -/
  | idEmpty
  /-- Go `ValidationError`: student ID contains non-alphanumeric characters. -/
  | idInvalidChars (value : String)
  /-- Go `FileProcessingError` at stage mark reading. -/
  | markReadFailed (cell : String)
  /-- Go `ValidationError`: mark is not a valid number. -/
  | markNotNumeric (cell : String) (value : String)
  /-- Go `ValidationError`: mark outside the range 0–100. -/
  | markOutOfRange (cell : String) (value : String)
deriving DecidableEq, Repr

/-- Whether the error is one of the `models.ValidationError` values (data
malformed in the source file), as opposed to a `FileProcessingError`. -/
def ExtractError.isValidationError : ExtractError → Bool
  | .idEmpty => true
  | .idInvalidChars _ => true
  | .markNotNumeric _ _ => true
  | .markOutOfRange _ _ => true
  | _ => false

/-- Short rendering of an extraction error (model of `Error()`), used for the
messages appended to `ProcessingSummary.Errors`. -/
def ExtractError.message : ExtractError → String
  | .unsupportedFormat => "unsupported file format"
  | .openFailed => "failed to open Excel file"
  | .worksheetNotFound n => "worksheet " ++ n ++ " not found"
  | .idReadFailed => "failed to read student ID"
  | .idEmpty => "student ID is empty"
  | .idInvalidChars v => "student ID " ++ v ++ " contains invalid characters"
  | .markReadFailed c => "failed to read mark from cell " ++ c
  | .markNotNumeric c v => "mark " ++ v ++ " in cell " ++ c ++ " is not a valid number"
  | .markOutOfRange c v => "mark " ++ v ++ " in cell " ++ c ++ " is outside valid range"

/-- Model of `models.ProcessingSummary` (the timing fields are not modelled). -/
structure ProcessingSummary where
  totalFiles : ℕ := 0
  successfulFiles : ℕ := 0
  failedFiles : ℕ := 0
  skippedFiles : ℕ := 0
  studentsUpdated : ℕ := 0
  studentsNotFound : ℕ := 0
  errors : List String := []
  warnings : List String := []
deriving DecidableEq, Repr

/-! ## Reader (`internal/excel/reader.go`) -/

/-- A student workbook as the reader capability sees it: the sheet list
(`GetSheetList`) and cell reading (`GetCellValue`, which can fail). -/
structure StudentFile where
  sheetList : List String
  cellVal : String → String → Option String

/-- The extension check at the top of `ReadStudentData`. -/
def isExcelExt (path : String) : Bool :=
  let ext := lowerString (filepathExt path)
  ext = ".xlsx" || ext = ".xls"

/-- The mark-reading loop of `ReadStudentData`: for every configured mark
cell, read the cell text and trim it; an empty cell is stored as `-1`
(missing mark), a non-numeric cell aborts with a validation error, a numeric
value outside `[0,100]` aborts with a validation error. -/
def readMarks (ws : String) (f : StudentFile) :
    List String → List (String × Dec) → Except ExtractError (List (String × Dec))
  | [], acc => .ok acc
  | cell :: rest, acc =>
    match f.cellVal ws cell with
    | none => .error (.markReadFailed cell)
    | some raw =>
      if trimSpace raw = "" then readMarks ws f rest (assocSet acc cell (Dec.ofInt (-1)))
      else
        match parseFloat (trimSpace raw) with
        | none => .error (.markNotNumeric cell (trimSpace raw))
        | some mark =>
          if Dec.blt mark (Dec.ofInt 0) || Dec.blt (Dec.ofInt 100) mark then
            .error (.markOutOfRange cell (trimSpace raw))
          else readMarks ws f rest (assocSet acc cell mark)

/-- Model of `Reader.ReadStudentData`: extension check, open, worksheet check, student
ID read/trim/validation, then the mark loop.  The `file` argument is `none`
when `excelize.OpenFile` fails. -/
def readStudentData (cfg : ExcelConfig) (path : String) (file : Option StudentFile) :
    Except ExtractError StudentData :=
  if !isExcelExt path then .error .unsupportedFormat
  else
    match file with
    | none => .error .openFailed
    | some f =>
      if !(f.sheetList.contains cfg.studentWorksheetName) then
        .error (.worksheetNotFound cfg.studentWorksheetName)
      else
        match f.cellVal cfg.studentWorksheetName cfg.studentIDCell with
        | none => .error .idReadFailed
        | some raw =>
          if trimSpace raw = "" then .error .idEmpty
          else if !isValidStudentID (trimSpace raw) then
            .error (.idInvalidChars (trimSpace raw))
          else
            (readMarks cfg.studentWorksheetName f cfg.markCells []).map
              (fun mks => { studentID := trimSpace raw, filePath := path, marks := mks })

/-- The per-row comparison of `FindStudentInMasterSheet`: the row has a column
B (index 1) whose trimmed, lowercased text equals the trimmed, lowercased
student ID. -/
def rowMatchesID (studentID : String) (row : List String) : Bool :=
  match row.get? 1 with
  | none => false
  | some b => lowerString (trimSpace b) = lowerString (trimSpace studentID)

/-- The scanning loop of `FindStudentInMasterSheet`, carrying the 0-based
index of the first row of `rows`. -/
def findStudentAux (studentID : String) : List (List String) → ℕ → Option ℕ
  | [], _ => none
  | row :: rest, idx =>
    if rowMatchesID studentID row then some (idx + 1)
    else findStudentAux studentID rest (idx + 1)

/-- Model of `Reader.FindStudentInMasterSheet`: scan the master rows top to bottom and
return the 1-based number of the first row whose column B matches the student
ID (case-insensitive, trimmed); `none` models the "not found" error. -/
def findStudentInMasterSheet (rows : List (List String)) (studentID : String) : Option ℕ :=
  findStudentAux studentID rows 0

/-! ## Writer (the excel writer file) -/

/-- The master workbook as the writer capability sees it: the sheet list
(`GetSheetList`), the rows of the master worksheet (`GetRows`, used by
`FindStudentInMasterSheet` and `ValidateMasterSheet`) and the numeric cells
written so far by `SetCellFloat` (address to value and decimal precision).
The mark columns written by this program are disjoint from the identifier
column read by the locator, so the two views are kept side by side. -/
structure MasterFile where
  sheetList : List String
  rows : List (List String)
  numCells : List (String × (Dec × ℕ))
deriving DecidableEq, Repr

/-- Model of `excelize.SetCellFloat` on the master worksheet: record the value and the
precision under the cell address. -/
def setCellFloat (mf : MasterFile) (addr : String) (v : Dec) (prec : ℕ) : MasterFile :=
  { mf with numCells := assocSet mf.numCells addr (v, prec) }

/-- Model of `Writer.ValidateMasterSheet`: the master worksheet must exist and
`GetRows` must return at least two rows (a header row plus one data row). -/
def validateMasterSheet (cfg : ExcelConfig) (mf : MasterFile) : Except String Unit :=
  if !(mf.sheetList.contains cfg.masterWorksheetName) then
    .error ("master worksheet " ++ cfg.masterWorksheetName ++ " not found")
  else if mf.rows.length < 2 then
    .error "master sheet appears to be empty or has no data rows"
  else .ok ()

/-- The inner mark-writing loop of `BatchUpdateMasterSheet` for one student:
iterate over the mark cells paired with the master columns (the Go loop breaks
once the column list is exhausted, which is the zip); a mark that is missing
from the map or negative (the empty-cell sentinel) is skipped, any other mark
is written with `SetCellFloat` at precision 2 into the located row.  Returns
the updated master and `markCount`, the number of cells written. -/
def applyStudentMarks (sd : StudentData) (rowNumber : ℕ) :
    List (String × String) → MasterFile → MasterFile × ℕ
  | [], mf => (mf, 0)
  | (markCell, col) :: rest, mf =>
    match assocGet sd.marks markCell with
    | none => applyStudentMarks sd rowNumber rest mf
    | some mark =>
      if Dec.blt mark (Dec.ofInt 0) then applyStudentMarks sd rowNumber rest mf
      else
        let target := col ++ toString rowNumber
        let step := applyStudentMarks sd rowNumber rest (setCellFloat mf target mark 2)
        (step.1, step.2 + 1)

/-- The warning message appended for a record whose identifier is not
located in the master sheet. -/
def notFoundMessage (sd : StudentData) : String :=
  "Student " ++ sd.studentID ++ " not found in master sheet"

/-- The per-record loop of `BatchUpdateMasterSheet`: locate each student; a
record whose identifier is not found increments `StudentsNotFound` and appends
one warning, any other record has its marks applied and, when at least one
cell was written, increments `StudentsUpdated`. -/
def batchApplyAll (cfg : ExcelConfig) :
    List StudentData → MasterFile → ProcessingSummary → MasterFile × ProcessingSummary
  | [], mf, s => (mf, s)
  | sd :: rest, mf, s =>
    match findStudentInMasterSheet mf.rows sd.studentID with
    | none =>
      batchApplyAll cfg rest mf
        { s with
            studentsNotFound := s.studentsNotFound + 1
            warnings := s.warnings ++ [notFoundMessage sd] }
    | some rowNumber =>
      let step := applyStudentMarks sd rowNumber (cfg.markCells.zip cfg.masterColumns) mf
      let s' := if 0 < step.2 then { s with studentsUpdated := s.studentsUpdated + 1 } else s
      batchApplyAll cfg rest step.1 s'

/-- Model of `Writer.BatchUpdateMasterSheet`: open the master once, check the master
worksheet exists, apply every record sequentially, save once at the end (the
save capability itself is outside the core and modelled as succeeding). -/
def batchUpdateMasterSheet (cfg : ExcelConfig) (mf : MasterFile)
    (studentDataList : List StudentData) : Except String (MasterFile × ProcessingSummary) :=
  if !(mf.sheetList.contains cfg.masterWorksheetName) then
    .error ("master worksheet " ++ cfg.masterWorksheetName ++ " not found")
  else .ok (batchApplyAll cfg studentDataList mf {})

/-! ## Processor (the processor package) -/

/-- The outcome of one `reader.ReadStudentData` call sequence for a file:
`models.ProcessingResult` restricted to the fields the pipeline reads
(`Success`, `StudentData`, `Error`; the error is `none` only in the degenerate
`RetryAttempts = 0` configuration where no attempt was ever made). -/
inductive FileResult where
  | success (sd : StudentData)
  | failure (e : Option ExtractError)
deriving DecidableEq, Repr

/-- What one run of `processFileWithRetries` did: the final result, the number
of `ReadStudentData` attempts actually performed, and the backoff sleeps (in
seconds) taken between consecutive attempts. -/
structure RetryOutcome where
  result : FileResult
  attempts : ℕ
  sleeps : List ℕ
deriving DecidableEq, Repr

/-- The retry loop of `processFileWithRetries`: `remaining` attempts are left
and the current attempt has 1-based index `attempt`.  Every attempt calls
`ReadStudentData`; success returns immediately, any failure — the loop does
not look at the error's classification — is followed by a sleep of `attempt`
seconds and another attempt while attempts remain; the last error is kept. -/
def retryGo (cfg : ExcelConfig) (path : String) (file : Option StudentFile) :
    ℕ → ℕ → Option ExtractError → RetryOutcome
  | 0, _, lastErr => ⟨.failure lastErr, 0, []⟩
  | rem + 1, attempt, _ =>
    match readStudentData cfg path file with
    | .ok sd => ⟨.success sd, 1, []⟩
    | .error e =>
      if rem = 0 then ⟨.failure (some e), 1, []⟩
      else
        let o := retryGo cfg path file rem (attempt + 1) (some e)
        ⟨o.result, o.attempts + 1, attempt :: o.sleeps⟩

/-- Model of `Processor.processFileWithRetries`: run the retry loop with
`RetryAttempts` attempts, starting at attempt 1 with no previous error.  The
file-opening capability `fs` yields the workbook behind a path (`none` when
opening fails). -/
def processFileWithRetries (ecfg : ExcelConfig) (pcfg : ProcessingConfig)
    (fs : String → Option StudentFile) (path : String) : RetryOutcome :=
  retryGo ecfg path (fs path) pcfg.retryAttempts 1 none

/-- Accumulator of the concurrent phase: the buffered successful records and
the shared summary. -/
structure ConcurrentResult where
  studentDataList : List StudentData
  summary : ProcessingSummary
deriving DecidableEq, Repr

/-- The mutex-guarded summary update a finishing task performs in
`processFilesConcurrently`: a success appends its record and bumps
`SuccessfulFiles`; a failure either bumps `SkippedFiles` (when
`SkipInvalidFiles` is set — the skip is logged but adds no summary message) or
bumps `FailedFiles` and appends exactly one message to `Errors`. -/
def foldOutcome (pcfg : ProcessingConfig) (path : String) (o : RetryOutcome)
    (acc : ConcurrentResult) : ConcurrentResult :=
  match o.result with
  | .success sd =>
    ⟨acc.studentDataList ++ [sd],
      { acc.summary with successfulFiles := acc.summary.successfulFiles + 1 }⟩
  | .failure e =>
    if pcfg.skipInvalidFiles then
      ⟨acc.studentDataList,
        { acc.summary with skippedFiles := acc.summary.skippedFiles + 1 }⟩
    else
      ⟨acc.studentDataList,
        { acc.summary with
            failedFiles := acc.summary.failedFiles + 1
            errors := acc.summary.errors ++
              ["File " ++ path ++ ": " ++
                (match e with | some err => err.message | none => "<nil>")] }⟩

/-- Model of `Processor.processFilesConcurrently`, sequentialised: the mutex makes each
task's summary update atomic, so the phase is a fold over the discovered files
(`idx` is the admission index used to sample the cancellation signal).  The Go
loop checks `ctx.Done()` before admitting each task, but the `break` in that
`select` leaves only the `select` statement, so the check merely logs a
warning and every file is still admitted; the observation below is therefore
dead. -/
def processFilesConcurrently (ecfg : ExcelConfig) (pcfg : ProcessingConfig)
    (fs : String → Option StudentFile) (cancelled : ℕ → Bool) :
    List String → ℕ → ConcurrentResult → ConcurrentResult
  | [], _, acc => acc
  | path :: rest, idx, acc =>
    let _observed := cancelled idx
    let o := processFileWithRetries ecfg pcfg fs path
    processFilesConcurrently ecfg pcfg fs cancelled rest (idx + 1) (foldOutcome pcfg path o acc)

/-- Model of `Processor.findExcelFiles`: the recursive walk collects every file under
the root whose lowercased extension is `.xlsx` or `.xls`; unreadable entries
are logged and skipped, never failing the walk.  `allPaths` is the sequence of
files the walk visits. -/
def findExcelFiles (allPaths : List String) : List String :=
  allPaths.filter isExcelExt

/-- What `Processor.ProcessFiles` returns and did to the world: the summary,
the master workbook as left on disk, whether a backup copy was written and
whether the timestamped output copy was written. -/
structure RunResult where
  summary : ProcessingSummary
  master : MasterFile
  backupCreated : Bool
  outputSaved : Bool
deriving DecidableEq, Repr

/-- Model of `Processor.ProcessFiles`: validate the master sheet, discover files
(empty discovery returns an empty summary), back the master up when enabled
and not a dry run (a backup failure aborts the run), run the concurrent
extraction phase, then — outside dry runs, when at least one record succeeded
— batch-merge into the master and save the timestamped output copy, whose
failure is only logged.  `.error` models a non-nil Go error return. -/
def processFiles (ecfg : ExcelConfig) (pcfg : ProcessingConfig)
    (fs : String → Option StudentFile) (allPaths : List String) (master : MasterFile)
    (cancelled : ℕ → Bool) (backupSucceeds saveCopySucceeds : Bool)
    (dryRun : Bool) : Except String RunResult :=
  match validateMasterSheet ecfg master with
  | .error e => .error ("master sheet validation failed: " ++ e)
  | .ok _ =>
    let excelFiles := findExcelFiles allPaths
    if excelFiles.length = 0 then
      .ok ⟨{ totalFiles := 0 }, master, false, false⟩
    else if pcfg.backupEnabled && !dryRun && !backupSucceeds then
      .error "failed to create backup"
    else
      let cr := processFilesConcurrently ecfg pcfg fs cancelled excelFiles 0 ⟨[], {}⟩
      let summary := { cr.summary with totalFiles := excelFiles.length }
      if !dryRun && !cr.studentDataList.isEmpty then
        match batchUpdateMasterSheet ecfg master cr.studentDataList with
        | .error e => .error ("failed to update master sheet: " ++ e)
        | .ok (master', usum) =>
          .ok ⟨{ summary with
                  studentsUpdated := usum.studentsUpdated
                  studentsNotFound := usum.studentsNotFound
                  errors := summary.errors ++ usum.errors
                  warnings := summary.warnings ++ usum.warnings },
               master', pcfg.backupEnabled && !dryRun, saveCopySucceeds⟩
      else
        .ok ⟨summary, master, pcfg.backupEnabled && !dryRun, false⟩

/-! ## Claim-facing predicates -/

/-- The acceptance condition for one mark cell's raw text, as `ReadStudentData`
enforces it: empty after trimming (a legitimately ungraded item), or parsing
as a number whose value lies in `[0, 100]`. -/
def markTextAccepted (raw : String) : Prop :=
  trimSpace raw = "" ∨
    ∃ d, parseFloat (trimSpace raw) = some d ∧ 0 ≤ d.toRat ∧ d.toRat ≤ 100

/-- The acceptance condition for the identifier cell's raw text: non-empty
after trimming and purely alphanumeric. -/
def idTextAccepted (raw : String) : Prop :=
  ¬(trimSpace raw = "") ∧ (trimSpace raw).data.all isAlphanumericChar = true

/-- A mark-cell/column pair actually writes to address `a` when its target
address is `a` and its mark is present and non-negative. -/
def writesTo (sd : StudentData) (rowNumber : ℕ) (p : String × String) (a : String) : Prop :=
  p.2 ++ toString rowNumber = a ∧
    ∃ m, assocGet sd.marks p.1 = some m ∧ Dec.blt m (Dec.ofInt 0) = false

/-- Whether a record's identifier is missing from the master rows. -/
def notLocated (rows : List (List String)) (sd : StudentData) : Bool :=
  findStudentInMasterSheet rows sd.studentID = none

/-! ## Concrete fixtures used by the witnesses and counterexamples -/

/-- A small run configuration: two mark cells mapped to columns I and J. -/
def ecfgW : ExcelConfig :=
  { studentWorksheetName := "Grading Sheet"
    masterWorksheetName := "001"
    studentIDCell := "B2"
    markCells := ["C6", "C7"]
    masterColumns := ["I", "J"] }

/-- Strict-mode processing configuration with two retry attempts. -/
def pcfgW : ProcessingConfig :=
  { maxConcurrentFiles := 5
    backupEnabled := false
    skipInvalidFiles := false
    retryAttempts := 2 }

/-- Tolerant processing configuration (invalid files are skipped). -/
def pcfgSkipW : ProcessingConfig :=
  { maxConcurrentFiles := 5
    backupEnabled := false
    skipInvalidFiles := true
    retryAttempts := 1 }

/-- A well-formed student workbook: identifier `STU001`, mark 85.5 in `C6`,
an intentionally empty `C7`. -/
def fGoodW : StudentFile :=
  { sheetList := ["Sheet1", "Grading Sheet"]
    cellVal := fun _ addr =>
      if addr = "B2" then some " STU001 "
      else if addr = "C6" then some "85.5"
      else some "" }

/-- A student workbook whose identifier cell holds `230-491` (malformed). -/
def fBadIDW : StudentFile :=
  { sheetList := ["Grading Sheet"]
    cellVal := fun _ addr =>
      if addr = "B2" then some "230-491"
      else some "75" }

/-- A student workbook for `STU999`, an identifier absent from the master. -/
def fGhostW : StudentFile :=
  { sheetList := ["Grading Sheet"]
    cellVal := fun _ addr =>
      if addr = "B2" then some "STU999"
      else some "50" }

/-- The filesystem behind the fixture paths; any other path fails to open. -/
def fsW : String → Option StudentFile :=
  fun p =>
    if p = "good.xlsx" then some fGoodW
    else if p = "badid.xlsx" then some fBadIDW
    else if p = "ghost.xlsx" then some fGhostW
    else none

/-- The master workbook: identifiers in column B, a pre-existing numeric
value in `J2`. -/
def masterW : MasterFile :=
  { sheetList := ["001"]
    rows := [["Name", "Student ID"], ["John Doe", "STU001"], ["Jane Smith", "STU002"]]
    numCells := [("J2", (Dec.ofInt 7, 2))] }

/-- The record extraction produces from `fGoodW`. -/
def sdGoodW : StudentData :=
  { studentID := "STU001"
    filePath := "good.xlsx"
    marks := [("C6", ⟨855, 1⟩), ("C7", Dec.ofInt (-1))] }

/-- Master rows containing a duplicate identifier (`STU001` twice, with
varying case and whitespace). -/
def rowsDupW : List (List String) :=
  [["Name", "Student ID"], ["John", " stu001 "], ["Dup", "STU001"]]

/-- The record extraction produces from `fGhostW`. -/
def sdGhostW : StudentData :=
  { studentID := "STU999"
    filePath := "ghost.xlsx"
    marks := [("C6", Dec.ofInt 50), ("C7", Dec.ofInt 50)] }

/-! ## Basic lemmas about the building blocks -/

/-- Reading an association list after a write. -/
theorem assocGet_assocSet {α : Type} (m : List (String × α)) (k k' : String) (v : α) :
    assocGet (assocSet m k v) k' = if k = k' then some v else assocGet m k' := by
  induction m with
  | nil =>
    by_cases h : k = k' <;> simp [assocGet, assocSet, h]
  | cons p rest ih =>
    obtain ⟨k₀, v₀⟩ := p
    by_cases h₀ : k₀ = k
    · subst h₀
      by_cases h : k₀ = k' <;> simp [assocGet, assocSet, h]
    · by_cases h : k₀ = k'
      · subst h
        have hkk : ¬ k = k₀ := fun hh => h₀ hh.symm
        simp [assocGet, assocSet, h₀, hkk]
      · simp [assocGet, assocSet, h₀, h, ih]

/-- Entries of an association list after a write. -/
theorem mem_assocSet {α : Type} (m : List (String × α)) (k : String) (v : α)
    (p : String × α) (h : p ∈ assocSet m k v) : p ∈ m ∨ p = (k, v) := by
  induction m with
  | nil =>
    simp [assocSet] at h
    exact Or.inr h
  | cons q rest ih =>
    obtain ⟨k₀, v₀⟩ := q
    by_cases h₀ : k₀ = k
    · subst h₀
      simp [assocSet] at h
      rcases h with h | h
      · exact Or.inr h
      · exact Or.inl (List.mem_cons_of_mem _ h)
    · simp [assocSet, h₀] at h
      rcases h with h | h
      · exact Or.inl (by simp [h])
      · rcases ih h with h' | h'
        · exact Or.inl (List.mem_cons_of_mem _ h')
        · exact Or.inr h'

/-- The comparison `Dec.blt` decides the strict order of the rational values. -/
theorem Dec.blt_iff_toRat (a b : Dec) : Dec.blt a b = true ↔ a.toRat < b.toRat := by
  unfold Dec.blt Dec.toRat
  rw [decide_eq_true_eq, div_lt_div_iff₀ (by positivity) (by positivity)]
  constructor <;> intro h <;> exact_mod_cast h

/-- The rational value of an embedded integer. -/
theorem Dec.ofInt_toRat (n : ℤ) : (Dec.ofInt n).toRat = (n : ℚ) := by
  simp [Dec.ofInt, Dec.toRat]

/-- The comparison `Dec.blt` is false exactly when the values are ordered the other way. -/
theorem Dec.blt_eq_false_iff (a b : Dec) : Dec.blt a b = false ↔ b.toRat ≤ a.toRat := by
  rw [← not_lt, ← Dec.blt_iff_toRat]
  cases h : Dec.blt a b <;> simp [h]

/-- Appending the same suffix is injective on strings. -/
theorem string_append_cancel (a b s : String) (h : a ++ s = b ++ s) : a = b := by
  obtain ⟨la⟩ := a
  obtain ⟨lb⟩ := b
  obtain ⟨ls⟩ := s
  have hd : la ++ ls = lb ++ ls := congrArg String.data h
  have : la = lb := List.append_cancel_right hd
  rw [this]

/-! ## Lemmas about the reader -/

/-- The range test of the mark loop is false exactly when the parsed value
lies in `[0, 100]`. -/
theorem markRange_eq_false_iff (mark : Dec) :
    (Dec.blt mark (Dec.ofInt 0) || Dec.blt (Dec.ofInt 100) mark) = false ↔
      0 ≤ mark.toRat ∧ mark.toRat ≤ 100 := by
  rw [Bool.or_eq_false_iff, Dec.blt_eq_false_iff, Dec.blt_eq_false_iff, Dec.ofInt_toRat,
    Dec.ofInt_toRat]
  constructor
  · exact fun h => ⟨by exact_mod_cast h.1, by exact_mod_cast h.2⟩
  · exact fun h => ⟨by exact_mod_cast h.1, by exact_mod_cast h.2⟩

/-- Forward direction of all-or-nothing for the mark loop: on success every
configured cell's text was readable and accepted. -/
theorem readMarks_ok_accepted (ws : String) (f : StudentFile) (cells : List String) :
    ∀ acc r, readMarks ws f cells acc = .ok r →
      ∀ c ∈ cells, ∃ raw, f.cellVal ws c = some raw ∧ markTextAccepted raw := by
  induction cells with
  | nil => intro acc r _ c hc; cases hc
  | cons d rest ih =>
    intro acc r h c hc
    cases hcv : f.cellVal ws d with
    | none => simp [readMarks, hcv] at h
    | some raw =>
      simp only [readMarks, hcv] at h
      by_cases hemp : trimSpace raw = ""
      · rw [if_pos hemp] at h
        rcases List.mem_cons.mp hc with rfl | hc'
        · exact ⟨raw, hcv, Or.inl hemp⟩
        · exact ih _ _ h c hc'
      · rw [if_neg hemp] at h
        cases hpf : parseFloat (trimSpace raw) with
        | none => simp [hpf] at h
        | some mark =>
          cases hrange : (Dec.blt mark (Dec.ofInt 0) || Dec.blt (Dec.ofInt 100) mark) with
          | true => simp [hpf, hrange] at h
          | false =>
            simp only [hpf, hrange, Bool.false_eq_true, if_false] at h
            rcases List.mem_cons.mp hc with rfl | hc'
            · exact ⟨raw, hcv, Or.inr ⟨mark, hpf, (markRange_eq_false_iff mark).mp hrange⟩⟩
            · exact ih _ _ h c hc'

/-- Completeness of the mark loop: when every configured cell's text is
readable and accepted, the loop succeeds. -/
theorem readMarks_accepted_ok (ws : String) (f : StudentFile) (cells : List String) :
    ∀ acc, (∀ c ∈ cells, ∃ raw, f.cellVal ws c = some raw ∧ markTextAccepted raw) →
      ∃ r, readMarks ws f cells acc = .ok r := by
  induction cells with
  | nil => intro acc _; exact ⟨acc, rfl⟩
  | cons d rest ih =>
    intro acc h
    obtain ⟨raw, hcv, hacc⟩ := h d (by simp)
    have hrest : ∀ c ∈ rest, ∃ raw, f.cellVal ws c = some raw ∧ markTextAccepted raw :=
      fun c hc => h c (List.mem_cons_of_mem _ hc)
    by_cases hemp : trimSpace raw = ""
    · obtain ⟨r, hr⟩ := ih (assocSet acc d (Dec.ofInt (-1))) hrest
      exact ⟨r, by simp only [readMarks, hcv]; rw [if_pos hemp]; exact hr⟩
    · rcases hacc with h1 | ⟨mark, hpf, hin⟩
      · exact absurd h1 hemp
      · have hrange : (Dec.blt mark (Dec.ofInt 0) || Dec.blt (Dec.ofInt 100) mark) = false :=
          (markRange_eq_false_iff mark).mpr hin
        obtain ⟨r, hr⟩ := ih (assocSet acc d mark) hrest
        refine ⟨r, ?_⟩
        simp only [readMarks, hcv]
        rw [if_neg hemp]
        simp only [hpf, hrange, Bool.false_eq_true, if_false]
        exact hr

/-- When every configured cell is readable, a mark-loop failure is always one
of the `models.ValidationError` values. -/
theorem readMarks_error_validation (ws : String) (f : StudentFile) (cells : List String) :
    ∀ acc e, (∀ c ∈ cells, (f.cellVal ws c).isSome) →
      readMarks ws f cells acc = .error e → e.isValidationError = true := by
  induction cells with
  | nil => intro acc e _ h; cases h
  | cons d rest ih =>
    intro acc e hreads h
    cases hcv : f.cellVal ws d with
    | none =>
      have := hreads d (by simp)
      rw [hcv] at this; cases this
    | some raw =>
      simp only [readMarks, hcv] at h
      by_cases hemp : trimSpace raw = ""
      · rw [if_pos hemp] at h
        exact ih _ _ (fun c hc => hreads c (List.mem_cons_of_mem _ hc)) h
      · rw [if_neg hemp] at h
        cases hpf : parseFloat (trimSpace raw) with
        | none =>
          simp only [hpf] at h
          cases h
          rfl
        | some mark =>
          cases hrange : (Dec.blt mark (Dec.ofInt 0) || Dec.blt (Dec.ofInt 100) mark) with
          | true =>
            simp only [hpf, hrange, if_true] at h
            cases h
            rfl
          | false =>
            simp only [hpf, hrange, Bool.false_eq_true, if_false] at h
            exact ih _ _ (fun c hc => hreads c (List.mem_cons_of_mem _ hc)) h

/-- On success the mark loop's result binds every configured cell (and keeps
every binding it started with). -/
theorem readMarks_lookup_isSome (ws : String) (f : StudentFile) (cells : List String) :
    ∀ acc r, readMarks ws f cells acc = .ok r →
      ∀ c, (c ∈ cells ∨ (assocGet acc c).isSome) → (assocGet r c).isSome := by
  induction cells with
  | nil =>
    intro acc r h c hc
    cases h
    rcases hc with hc | hc
    · cases hc
    · exact hc
  | cons d rest ih =>
    intro acc r h c hc
    cases hcv : f.cellVal ws d with
    | none => simp [readMarks, hcv] at h
    | some raw =>
      simp only [readMarks, hcv] at h
      have step :
          ∀ v, readMarks ws f rest (assocSet acc d v) = .ok r → (assocGet r c).isSome := by
        intro v hv
        rcases hc with hc | hc
        · rcases List.mem_cons.mp hc with rfl | hc'
          · refine ih _ _ hv c (Or.inr ?_)
            rw [assocGet_assocSet]
            simp
          · exact ih _ _ hv c (Or.inl hc')
        · refine ih _ _ hv c (Or.inr ?_)
          rw [assocGet_assocSet]
          by_cases hdc : d = c <;> simp [hdc, hc]
      by_cases hemp : trimSpace raw = ""
      · rw [if_pos hemp] at h
        exact step _ h
      · rw [if_neg hemp] at h
        cases hpf : parseFloat (trimSpace raw) with
        | none => simp [hpf] at h
        | some mark =>
          cases hrange : (Dec.blt mark (Dec.ofInt 0) || Dec.blt (Dec.ofInt 100) mark) with
          | true => simp [hpf, hrange] at h
          | false =>
            simp only [hpf, hrange, Bool.false_eq_true, if_false] at h
            exact step _ h

/-- Provenance of every binding produced by the mark loop: it was already in
the accumulator, or its cell read back text that is either empty (bound to the
`-1` sentinel) or parses to a value in `[0, 100]`. -/
theorem readMarks_mem (ws : String) (f : StudentFile) (cells : List String) :
    ∀ acc r, readMarks ws f cells acc = .ok r →
      ∀ p ∈ r, p ∈ acc ∨ ∃ raw, f.cellVal ws p.1 = some raw ∧
        ((trimSpace raw = "" ∧ p.2 = Dec.ofInt (-1)) ∨
          (parseFloat (trimSpace raw) = some p.2 ∧ 0 ≤ p.2.toRat ∧ p.2.toRat ≤ 100)) := by
  induction cells with
  | nil =>
    intro acc r h p hp
    cases h
    exact Or.inl hp
  | cons d rest ih =>
    intro acc r h p hp
    cases hcv : f.cellVal ws d with
    | none => simp [readMarks, hcv] at h
    | some raw =>
      simp only [readMarks, hcv] at h
      by_cases hemp : trimSpace raw = ""
      · rw [if_pos hemp] at h
        rcases ih _ _ h p hp with hacc | hfound
        · rcases mem_assocSet _ _ _ _ hacc with hacc2 | hpv
          · exact Or.inl hacc2
          · rw [hpv]
            exact Or.inr ⟨raw, hcv, Or.inl ⟨hemp, rfl⟩⟩
        · exact Or.inr hfound
      · rw [if_neg hemp] at h
        cases hpf : parseFloat (trimSpace raw) with
        | none => simp [hpf] at h
        | some mark =>
          cases hrange : (Dec.blt mark (Dec.ofInt 0) || Dec.blt (Dec.ofInt 100) mark) with
          | true => simp [hpf, hrange] at h
          | false =>
            simp only [hpf, hrange, Bool.false_eq_true, if_false] at h
            rcases ih _ _ h p hp with hacc | hfound
            · rcases mem_assocSet _ _ _ _ hacc with hacc2 | hpv
              · exact Or.inl hacc2
              · rw [hpv]
                exact Or.inr ⟨raw, hcv,
                  Or.inr ⟨hpf, (markRange_eq_false_iff mark).mp hrange⟩⟩
            · exact Or.inr hfound

/-! ## Lemmas about the locator -/

/-- Characterisation of the scanning loop: it yields `k + i + 1` exactly when
row `i` (0-based, relative to the remaining rows) is the first match. -/
theorem findStudentAux_eq_some (sid : String) (rows : List (List String)) :
    ∀ k r, findStudentAux sid rows k = some r ↔
      ∃ i, i < rows.length ∧ r = k + i + 1 ∧ rowMatchesID sid (rows.getD i []) = true ∧
        ∀ j, j < i → rowMatchesID sid (rows.getD j []) = false := by
  induction rows with
  | nil => intro k r; simp [findStudentAux]
  | cons row rest ih =>
    intro k r
    cases hm : rowMatchesID sid row with
    | true =>
      simp only [findStudentAux, hm, if_true]
      constructor
      · rintro h
        cases h
        exact ⟨0, by simp, by omega, by simpa using hm, fun j hj => absurd hj (Nat.not_lt_zero j)⟩
      · rintro ⟨i, hlen, hr, hmatch, hfirst⟩
        cases i with
        | zero => simp [hr]
        | succ i =>
          have := hfirst 0 (Nat.succ_pos i)
          simp only [List.getD_cons_zero] at this
          rw [hm] at this
          cases this
    | false =>
      simp only [findStudentAux, hm, Bool.false_eq_true, if_false]
      rw [ih (k + 1) r]
      constructor
      · rintro ⟨i, hlen, hr, hmatch, hfirst⟩
        refine ⟨i + 1, by simpa using hlen, by omega, by simpa using hmatch, ?_⟩
        intro j hj
        cases j with
        | zero => simpa using hm
        | succ j =>
          have := hfirst j (by omega)
          simpa using this
      · rintro ⟨i, hlen, hr, hmatch, hfirst⟩
        cases i with
        | zero =>
          simp only [List.getD_cons_zero] at hmatch
          rw [hm] at hmatch
          cases hmatch
        | succ i =>
          refine ⟨i, by simpa using hlen, by omega, by simpa using hmatch, ?_⟩
          intro j hj
          have := hfirst (j + 1) (by omega)
          simpa using this

/-! ## Lemmas about the writer -/

/-- The mark-writing loop only touches `numCells`. -/
theorem applyStudentMarks_frame (sd : StudentData) (rowNumber : ℕ)
    (pairs : List (String × String)) :
    ∀ mf, (applyStudentMarks sd rowNumber pairs mf).1.rows = mf.rows ∧
      (applyStudentMarks sd rowNumber pairs mf).1.sheetList = mf.sheetList := by
  induction pairs with
  | nil => intro mf; exact ⟨rfl, rfl⟩
  | cons p rest ih =>
    intro mf
    obtain ⟨mc, col⟩ := p
    cases hm : assocGet sd.marks mc with
    | none => simpa [applyStudentMarks, hm] using ih mf
    | some m =>
      cases hneg : Dec.blt m (Dec.ofInt 0) with
      | true => simpa [applyStudentMarks, hm, hneg] using ih mf
      | false =>
        simp only [applyStudentMarks, hm, hneg, Bool.false_eq_true, if_false]
        exact ih (setCellFloat mf (col ++ toString rowNumber) m 2)

/-- A cell to which no pair writes is unchanged by the mark-writing loop. -/
theorem applyStudentMarks_get_frame (sd : StudentData) (rowNumber : ℕ)
    (pairs : List (String × String)) :
    ∀ mf a, (∀ p ∈ pairs, ¬ writesTo sd rowNumber p a) →
      assocGet (applyStudentMarks sd rowNumber pairs mf).1.numCells a =
        assocGet mf.numCells a := by
  induction pairs with
  | nil => intro mf a _; rfl
  | cons p rest ih =>
    intro mf a hno
    obtain ⟨mc, col⟩ := p
    have hrest : ∀ q ∈ rest, ¬ writesTo sd rowNumber q a :=
      fun q hq => hno q (List.mem_cons_of_mem _ hq)
    cases hm : assocGet sd.marks mc with
    | none => simpa [applyStudentMarks, hm] using ih mf a hrest
    | some m =>
      cases hneg : Dec.blt m (Dec.ofInt 0) with
      | true => simpa [applyStudentMarks, hm, hneg] using ih mf a hrest
      | false =>
        have haddr : col ++ toString rowNumber ≠ a := by
          intro hcontra
          exact hno (mc, col) (by simp) ⟨hcontra, m, hm, hneg⟩
        simp only [applyStudentMarks, hm, hneg, Bool.false_eq_true, if_false]
        rw [ih _ a hrest]
        simp only [setCellFloat]
        rw [assocGet_assocSet]
        rw [if_neg haddr]

/-- A cell to which some pair writes, all writers looking up the same present
non-negative mark, holds that mark (at precision 2) after the loop. -/
theorem applyStudentMarks_get_hit (sd : StudentData) (rowNumber : ℕ) (m : Dec)
    (pairs : List (String × String)) :
    ∀ mf a, (∃ p ∈ pairs, p.2 ++ toString rowNumber = a) →
      (∀ p ∈ pairs, p.2 ++ toString rowNumber = a → assocGet sd.marks p.1 = some m) →
      Dec.blt m (Dec.ofInt 0) = false →
      assocGet (applyStudentMarks sd rowNumber pairs mf).1.numCells a = some (m, 2) := by
  induction pairs with
  | nil => rintro mf a ⟨p, hp, -⟩; cases hp
  | cons p rest ih =>
    intro mf a hmem hval hneg
    obtain ⟨mc, col⟩ := p
    by_cases haddr : col ++ toString rowNumber = a
    · have hm : assocGet sd.marks mc = some m := hval (mc, col) (by simp) haddr
      simp only [applyStudentMarks, hm, hneg, Bool.false_eq_true, if_false]
      rw [haddr]
      by_cases hrest : ∃ q ∈ rest, q.2 ++ toString rowNumber = a
      · exact ih _ a hrest (fun q hq => hval q (List.mem_cons_of_mem _ hq)) hneg
      · have hno : ∀ q ∈ rest, ¬ writesTo sd rowNumber q a := by
          intro q hq hw
          exact hrest ⟨q, hq, hw.1⟩
        rw [applyStudentMarks_get_frame sd rowNumber rest _ a hno]
        simp only [setCellFloat]
        rw [assocGet_assocSet]
        rw [if_pos rfl]
    · have hmem' : ∃ q ∈ rest, q.2 ++ toString rowNumber = a := by
        obtain ⟨q, hq, hqa⟩ := hmem
        rcases List.mem_cons.mp hq with rfl | hq'
        · exact absurd hqa haddr
        · exact ⟨q, hq', hqa⟩
      have hval' : ∀ q ∈ rest, q.2 ++ toString rowNumber = a → assocGet sd.marks q.1 = some m :=
        fun q hq => hval q (List.mem_cons_of_mem _ hq)
      cases hm : assocGet sd.marks mc with
      | none => simpa [applyStudentMarks, hm] using ih mf a hmem' hval' hneg
      | some m' =>
        cases hneg' : Dec.blt m' (Dec.ofInt 0) with
        | true => simpa [applyStudentMarks, hm, hneg'] using ih mf a hmem' hval' hneg
        | false =>
          simp only [applyStudentMarks, hm, hneg', Bool.false_eq_true, if_false]
          exact ih _ a hmem' hval' hneg

/-- The per-record loop only touches `numCells` of the master. -/
theorem batchApplyAll_frame (cfg : ExcelConfig) (sdl : List StudentData) :
    ∀ mf s, (batchApplyAll cfg sdl mf s).1.rows = mf.rows ∧
      (batchApplyAll cfg sdl mf s).1.sheetList = mf.sheetList := by
  induction sdl with
  | nil => intro mf s; exact ⟨rfl, rfl⟩
  | cons sd rest ih =>
    intro mf s
    cases hf : findStudentInMasterSheet mf.rows sd.studentID with
    | none => simpa [batchApplyAll, hf] using ih mf _
    | some rowNumber =>
      simp only [batchApplyAll, hf]
      obtain ⟨hr, hs⟩ :=
        ih (applyStudentMarks sd rowNumber (cfg.markCells.zip cfg.masterColumns) mf).1 _
      obtain ⟨hr', hs'⟩ :=
        applyStudentMarks_frame sd rowNumber (cfg.markCells.zip cfg.masterColumns) mf
      exact ⟨hr.trans hr', hs.trans hs'⟩

/-- The per-record loop never touches the error list. -/
theorem batchApplyAll_errors (cfg : ExcelConfig) (sdl : List StudentData) :
    ∀ mf s, (batchApplyAll cfg sdl mf s).2.errors = s.errors := by
  induction sdl with
  | nil => intro mf s; rfl
  | cons sd rest ih =>
    intro mf s
    cases hf : findStudentInMasterSheet mf.rows sd.studentID with
    | none => simp [batchApplyAll, hf, ih]
    | some rowNumber =>
      by_cases hcnt :
          0 < (applyStudentMarks sd rowNumber (cfg.markCells.zip cfg.masterColumns) mf).2 <;>
        simp [batchApplyAll, hf, ih, hcnt]

/-- The per-record loop appends exactly one warning per unlocated record. -/
theorem batchApplyAll_warnings (cfg : ExcelConfig) (sdl : List StudentData) :
    ∀ mf s, (batchApplyAll cfg sdl mf s).2.warnings =
      s.warnings ++ (sdl.filter (notLocated mf.rows)).map notFoundMessage := by
  induction sdl with
  | nil => intro mf s; simp [batchApplyAll]
  | cons sd rest ih =>
    intro mf s
    cases hf : findStudentInMasterSheet mf.rows sd.studentID with
    | none =>
      have hloc : notLocated mf.rows sd = true := by simp [notLocated, hf]
      simp [batchApplyAll, hf, ih, List.filter_cons, hloc]
    | some rowNumber =>
      have hloc : notLocated mf.rows sd = false := by simp [notLocated, hf]
      have hrows :=
        (applyStudentMarks_frame sd rowNumber (cfg.markCells.zip cfg.masterColumns) mf).1
      by_cases hcnt :
          0 < (applyStudentMarks sd rowNumber (cfg.markCells.zip cfg.masterColumns) mf).2 <;>
        simp [batchApplyAll, hf, ih, hrows, List.filter_cons, hloc, hcnt]

/-- The per-record loop counts exactly the unlocated records in
`StudentsNotFound`. -/
theorem batchApplyAll_notFound (cfg : ExcelConfig) (sdl : List StudentData) :
    ∀ mf s, (batchApplyAll cfg sdl mf s).2.studentsNotFound =
      s.studentsNotFound + (sdl.filter (notLocated mf.rows)).length := by
  induction sdl with
  | nil => intro mf s; simp [batchApplyAll]
  | cons sd rest ih =>
    intro mf s
    cases hf : findStudentInMasterSheet mf.rows sd.studentID with
    | none =>
      have hloc : notLocated mf.rows sd = true := by simp [notLocated, hf]
      simp [batchApplyAll, hf, ih, List.filter_cons, hloc]
      omega
    | some rowNumber =>
      have hloc : notLocated mf.rows sd = false := by simp [notLocated, hf]
      have hrows :=
        (applyStudentMarks_frame sd rowNumber (cfg.markCells.zip cfg.masterColumns) mf).1
      by_cases hcnt :
          0 < (applyStudentMarks sd rowNumber (cfg.markCells.zip cfg.masterColumns) mf).2 <;>
        simp [batchApplyAll, hf, ih, hrows, List.filter_cons, hloc, hcnt]

/-- The master produced by the per-record loop does not depend on the summary
accumulator. -/
theorem batchApplyAll_fst_indep (cfg : ExcelConfig) (sdl : List StudentData) :
    ∀ mf s s', (batchApplyAll cfg sdl mf s).1 = (batchApplyAll cfg sdl mf s').1 := by
  induction sdl with
  | nil => intro mf s s'; rfl
  | cons sd rest ih =>
    intro mf s s'
    cases hf : findStudentInMasterSheet mf.rows sd.studentID with
    | none => simp only [batchApplyAll, hf]; exact ih mf _ _
    | some rowNumber => simp only [batchApplyAll, hf]; exact ih _ _ _

/-- Unlocated records do not abort the batch: the final master equals the one
obtained by applying only the locatable records. -/
theorem batchApplyAll_fst_filter (cfg : ExcelConfig) (sdl : List StudentData) :
    ∀ mf s s', (batchApplyAll cfg sdl mf s).1 =
      (batchApplyAll cfg (sdl.filter (fun sd => !(notLocated mf.rows sd))) mf s').1 := by
  induction sdl with
  | nil => intro mf s s'; rfl
  | cons sd rest ih =>
    intro mf s s'
    cases hf : findStudentInMasterSheet mf.rows sd.studentID with
    | none =>
      have hloc : notLocated mf.rows sd = true := by simp [notLocated, hf]
      simp only [batchApplyAll, hf, List.filter_cons, hloc, Bool.not_true,
        Bool.false_eq_true, if_false]
      exact ih mf _ s'
    | some rowNumber =>
      have hloc : notLocated mf.rows sd = false := by simp [notLocated, hf]
      have hrows :=
        (applyStudentMarks_frame sd rowNumber (cfg.markCells.zip cfg.masterColumns) mf).1
      simp only [batchApplyAll, hf, List.filter_cons, hloc, Bool.not_false, if_true]
      rw [ih _ _ s', hrows]
      exact batchApplyAll_fst_indep cfg _ _ _ _

/-! ## Lemmas about the processor -/

/-- A successful read returns after the first attempt, with no sleeps. -/
theorem retryGo_ok (cfg : ExcelConfig) (path : String) (file : Option StudentFile)
    (sd : StudentData) (h : readStudentData cfg path file = .ok sd) :
    ∀ rem attempt lastErr, 1 ≤ rem →
      retryGo cfg path file rem attempt lastErr = ⟨.success sd, 1, []⟩ := by
  intro rem attempt lastErr hrem
  cases rem with
  | zero => cases hrem
  | succ r => simp [retryGo, h]

/-- A failing read is attempted exactly `rem` times, sleeping the attempt
index in seconds between consecutive attempts, and reports the last error. -/
theorem retryGo_error (cfg : ExcelConfig) (path : String) (file : Option StudentFile)
    (e : ExtractError) (h : readStudentData cfg path file = .error e) :
    ∀ rem, 1 ≤ rem → ∀ attempt lastErr,
      retryGo cfg path file rem attempt lastErr =
        ⟨.failure (some e), rem, List.range' attempt (rem - 1)⟩ := by
  intro rem
  induction rem with
  | zero => intro hrem; cases hrem
  | succ r ih =>
    intro _ attempt lastErr
    cases r with
    | zero => simp [retryGo, h]
    | succ r' =>
      have hne : ¬ (r' + 1 = 0) := by omega
      rw [retryGo.eq_2, h]
      simp only [if_neg hne]
      rw [ih (by omega) (attempt + 1) (some e)]
      simp [List.range'_succ]

/-- Each discovered file bumps exactly one of the three per-file counters. -/
theorem processFilesConcurrently_counts (ecfg : ExcelConfig) (pcfg : ProcessingConfig)
    (fs : String → Option StudentFile) (cancelled : ℕ → Bool) (files : List String) :
    ∀ idx acc,
      (processFilesConcurrently ecfg pcfg fs cancelled files idx acc).summary.successfulFiles +
        (processFilesConcurrently ecfg pcfg fs cancelled files idx acc).summary.failedFiles +
        (processFilesConcurrently ecfg pcfg fs cancelled files idx acc).summary.skippedFiles =
      acc.summary.successfulFiles + acc.summary.failedFiles + acc.summary.skippedFiles +
        files.length := by
  induction files with
  | nil => intro idx acc; simp [processFilesConcurrently]
  | cons path rest ih =>
    intro idx acc
    simp only [processFilesConcurrently]
    rw [ih]
    cases hres : (processFileWithRetries ecfg pcfg fs path).result with
    | success sd =>
      simp only [foldOutcome, hres, List.length_cons]
      omega
    | failure e =>
      by_cases hskip : pcfg.skipInvalidFiles = true <;>
        simp only [foldOutcome, hres, hskip, Bool.false_eq_true, if_true, if_false,
          List.length_cons] <;>
        omega

/-- The concurrent phase appends exactly one error message per failed file and
never touches the warnings. -/
theorem processFilesConcurrently_messages (ecfg : ExcelConfig) (pcfg : ProcessingConfig)
    (fs : String → Option StudentFile) (cancelled : ℕ → Bool) (files : List String) :
    ∀ idx acc,
      (processFilesConcurrently ecfg pcfg fs cancelled files idx acc).summary.warnings =
        acc.summary.warnings ∧
      (processFilesConcurrently ecfg pcfg fs cancelled files idx acc).summary.errors.length +
          acc.summary.failedFiles =
        acc.summary.errors.length +
          (processFilesConcurrently ecfg pcfg fs cancelled files idx acc).summary.failedFiles := by
  induction files with
  | nil => intro idx acc; exact ⟨rfl, rfl⟩
  | cons path rest ih =>
    intro idx acc
    simp only [processFilesConcurrently]
    obtain ⟨ihw, ihe⟩ :=
      ih (idx + 1) (foldOutcome pcfg path (processFileWithRetries ecfg pcfg fs path) acc)
    have hw :
        (foldOutcome pcfg path (processFileWithRetries ecfg pcfg fs path) acc).summary.warnings =
          acc.summary.warnings := by
      cases hres : (processFileWithRetries ecfg pcfg fs path).result with
      | success sd => simp [foldOutcome, hres]
      | failure e =>
        by_cases hskip : pcfg.skipInvalidFiles = true <;> simp [foldOutcome, hres, hskip]
    have hef :
        (foldOutcome pcfg path (processFileWithRetries ecfg pcfg fs path)
              acc).summary.errors.length +
            acc.summary.failedFiles =
          acc.summary.errors.length +
            (foldOutcome pcfg path (processFileWithRetries ecfg pcfg fs path)
              acc).summary.failedFiles := by
      cases hres : (processFileWithRetries ecfg pcfg fs path).result with
      | success sd => simp [foldOutcome, hres]
      | failure e =>
        by_cases hskip : pcfg.skipInvalidFiles = true <;>
          simp [foldOutcome, hres, hskip] <;> omega
    exact ⟨ihw.trans hw, by omega⟩

/-- The admission loop is oblivious to the cancellation signal: the `break`
in the Go `select` leaves only the `select`, so the loop behaves identically
under any cancellation history. -/
theorem processFilesConcurrently_cancel_indep (ecfg : ExcelConfig) (pcfg : ProcessingConfig)
    (fs : String → Option StudentFile) (files : List String) :
    ∀ c c' idx acc, processFilesConcurrently ecfg pcfg fs c files idx acc =
      processFilesConcurrently ecfg pcfg fs c' files idx acc := by
  induction files with
  | nil => intro c c' idx acc; rfl
  | cons path rest ih =>
    intro c c' idx acc
    simp only [processFilesConcurrently]
    exact ih c c' _ _

/-! ## Claim C3: extraction is all-or-nothing -/

/-- C3.  Extraction is all-or-nothing: given a supported extension, an
openable workbook containing the configured worksheet and readable cells,
`readStudentData` returns a record exactly when the trimmed identifier text is
non-empty and purely alphanumeric and every configured mark cell's trimmed
text is either empty or parses to a value in `[0, 100]`; a returned record
binds every configured mark cell (nothing partial), and any violation
surfaces as one of the typed `ValidationError` values. -/
theorem extraction_all_or_nothing (cfg : ExcelConfig) (path : String) (f : StudentFile)
    (hext : isExcelExt path = true)
    (hws : f.sheetList.contains cfg.studentWorksheetName = true)
    (hidr : (f.cellVal cfg.studentWorksheetName cfg.studentIDCell).isSome)
    (hmr : ∀ c ∈ cfg.markCells, (f.cellVal cfg.studentWorksheetName c).isSome) :
    ((∃ sd, readStudentData cfg path (some f) = .ok sd) ↔
      ((∃ raw, f.cellVal cfg.studentWorksheetName cfg.studentIDCell = some raw ∧
          idTextAccepted raw) ∧
        ∀ c ∈ cfg.markCells, ∃ raw, f.cellVal cfg.studentWorksheetName c = some raw ∧
          markTextAccepted raw)) ∧
    (∀ sd, readStudentData cfg path (some f) = .ok sd →
      ∀ c ∈ cfg.markCells, (assocGet sd.marks c).isSome) ∧
    (∀ e, readStudentData cfg path (some f) = .error e → e.isValidationError = true) := by
  obtain ⟨rawId, hid⟩ := Option.isSome_iff_exists.mp hidr
  have hmem : cfg.studentWorksheetName ∈ f.sheetList := by simpa using hws
  have hred : readStudentData cfg path (some f) =
      (if trimSpace rawId = "" then .error .idEmpty
       else if !isValidStudentID (trimSpace rawId) then
         .error (.idInvalidChars (trimSpace rawId))
       else (readMarks cfg.studentWorksheetName f cfg.markCells []).map
         (fun mks => { studentID := trimSpace rawId, filePath := path, marks := mks })) := by
    simp [readStudentData, hext, hmem, hid]
  by_cases hemp : trimSpace rawId = ""
  · rw [hred, if_pos hemp]
    refine ⟨⟨?_, ?_⟩, ?_, ?_⟩
    · rintro ⟨sd, hsd⟩; simp at hsd
    · rintro ⟨⟨raw, hraw, hacc⟩, -⟩
      rw [hid] at hraw
      cases hraw
      exact absurd hemp hacc.1
    · intro sd hsd; simp at hsd
    · intro e he
      have h1 := Except.error.inj he
      exact h1 ▸ rfl
  · by_cases hall : (trimSpace rawId).data.all isAlphanumericChar = true
    · have hvalid : isValidStudentID (trimSpace rawId) = true := by
        simp [isValidStudentID, hemp, hall]
      have hcond : ¬((!isValidStudentID (trimSpace rawId)) = true) := by simp [hvalid]
      rw [hred, if_neg hemp, if_neg hcond]
      refine ⟨⟨?_, ?_⟩, ?_, ?_⟩
      · rintro ⟨sd, hsd⟩
        refine ⟨⟨rawId, hid, hemp, hall⟩, ?_⟩
        cases hrm : readMarks cfg.studentWorksheetName f cfg.markCells [] with
        | error e => rw [hrm] at hsd; simp [Except.map] at hsd
        | ok r => exact readMarks_ok_accepted _ _ _ _ _ hrm
      · rintro ⟨-, hmarks⟩
        obtain ⟨r, hr⟩ := readMarks_accepted_ok _ _ _ [] hmarks
        exact ⟨_, by rw [hr]; rfl⟩
      · intro sd hsd c hc
        cases hrm : readMarks cfg.studentWorksheetName f cfg.markCells [] with
        | error e => rw [hrm] at hsd; simp [Except.map] at hsd
        | ok r =>
          rw [hrm] at hsd
          simp only [Except.map] at hsd
          have hmarks : sd.marks = r := by
            have := Except.ok.inj hsd
            rw [← this]
          rw [hmarks]
          exact readMarks_lookup_isSome _ _ _ _ _ hrm c (Or.inl hc)
      · intro e he
        cases hrm : readMarks cfg.studentWorksheetName f cfg.markCells [] with
        | ok r => rw [hrm] at he; simp [Except.map] at he
        | error e' =>
          rw [hrm] at he
          simp only [Except.map] at he
          have h1 := Except.error.inj he
          exact h1 ▸ readMarks_error_validation _ _ _ [] e' hmr hrm
    · have hallf : (trimSpace rawId).data.all isAlphanumericChar = false := by
        revert hall
        cases (trimSpace rawId).data.all isAlphanumericChar <;> simp
      have hvalid : isValidStudentID (trimSpace rawId) = false := by
        simp [isValidStudentID, hallf]
      rw [hred, if_neg hemp,
        if_pos (show (!isValidStudentID (trimSpace rawId)) = true by simp [hvalid])]
      refine ⟨⟨?_, ?_⟩, ?_, ?_⟩
      · rintro ⟨sd, hsd⟩; simp at hsd
      · rintro ⟨⟨raw, hraw, hacc⟩, -⟩
        rw [hid] at hraw
        cases hraw
        exact absurd hacc.2 (by simp [hallf])
      · intro sd hsd; simp at hsd
      · intro e he
        have h1 := Except.error.inj he
        exact h1 ▸ rfl

/-- Witness for C3 at the fixtures: the well-formed workbook is accepted. -/
theorem extraction_all_or_nothing_witness :
    ∃ sd, readStudentData ecfgW "good.xlsx" (some fGoodW) = .ok sd :=
  (extraction_all_or_nothing ecfgW "good.xlsx" fGoodW (by decide) (by decide)
      (by decide) (by decide)).1.mpr
    ⟨⟨" STU001 ", by decide, by decide, by decide⟩,
      by
        intro c hc
        fin_cases hc
        · exact ⟨"85.5", by decide,
            Or.inr ⟨⟨855, 1⟩, by decide, (markRange_eq_false_iff ⟨855, 1⟩).mp (by decide)⟩⟩
        · exact ⟨"", by decide, Or.inl (by decide)⟩⟩

/-! ## Claim C7: the record marks invariant -/

/-- Inversion for a successful extraction: the identifier cell was read and
the record's fields are the trimmed identifier, the path, and the result of
the mark loop. -/
theorem readStudentData_ok_elim (cfg : ExcelConfig) (path : String) (f : StudentFile)
    (sd : StudentData) (h : readStudentData cfg path (some f) = .ok sd) :
    ∃ rawId, f.cellVal cfg.studentWorksheetName cfg.studentIDCell = some rawId ∧
      sd.studentID = trimSpace rawId ∧ sd.filePath = path ∧
      readMarks cfg.studentWorksheetName f cfg.markCells [] = .ok sd.marks := by
  by_cases hextb : isExcelExt path = true
  · by_cases hwsb : f.sheetList.contains cfg.studentWorksheetName = true
    · have hmem : cfg.studentWorksheetName ∈ f.sheetList := by simpa using hwsb
      cases hcv : f.cellVal cfg.studentWorksheetName cfg.studentIDCell with
      | none => simp [readStudentData, hextb, hmem, hcv] at h
      | some rawId =>
        have hred : readStudentData cfg path (some f) =
            (if trimSpace rawId = "" then .error .idEmpty
             else if !isValidStudentID (trimSpace rawId) then
               .error (.idInvalidChars (trimSpace rawId))
             else (readMarks cfg.studentWorksheetName f cfg.markCells []).map
               (fun mks =>
                 { studentID := trimSpace rawId, filePath := path, marks := mks })) := by
          simp [readStudentData, hextb, hmem, hcv]
        rw [hred] at h
        by_cases hemp : trimSpace rawId = ""
        · rw [if_pos hemp] at h; cases h
        · rw [if_neg hemp] at h
          by_cases hvb : (!isValidStudentID (trimSpace rawId)) = true
          · rw [if_pos hvb] at h; cases h
          · rw [if_neg hvb] at h
            cases hrm : readMarks cfg.studentWorksheetName f cfg.markCells [] with
            | error e => rw [hrm] at h; simp [Except.map] at h
            | ok r =>
              rw [hrm] at h
              simp only [Except.map] at h
              have hsd := Except.ok.inj h
              refine ⟨rawId, rfl, ?_, ?_, ?_⟩
              · rw [← hsd]
              · rw [← hsd]
              · rw [← hsd]
    · have hmemf : cfg.studentWorksheetName ∉ f.sheetList := by
        intro hc
        exact hwsb (by simpa using hc)
      simp [readStudentData, hextb, hmemf] at h
  · have hextf : isExcelExt path = false := by
      revert hextb
      cases isExcelExt path <;> simp
    simp [readStudentData, hextf] at h

/-- C7.  Every value in the marks map of a record produced by extraction is
either a number in `[0, 100]` or the explicit absent sentinel `-1`, the
latter exactly for cells whose trimmed text was empty — a negative number is
never stored as mark data. -/
theorem record_marks_invariant (cfg : ExcelConfig) (path : String) (f : StudentFile)
    (sd : StudentData) (h : readStudentData cfg path (some f) = .ok sd) :
    ∀ p ∈ sd.marks, ∃ raw, f.cellVal cfg.studentWorksheetName p.1 = some raw ∧
      ((trimSpace raw = "" ∧ p.2 = Dec.ofInt (-1)) ∨
        (0 ≤ p.2.toRat ∧ p.2.toRat ≤ 100)) := by
  obtain ⟨rawId, -, -, -, hrm⟩ := readStudentData_ok_elim cfg path f sd h
  intro p hp
  rcases readMarks_mem _ _ _ _ _ hrm p hp with hacc | ⟨raw, hraw, hprov⟩
  · cases hacc
  · refine ⟨raw, hraw, ?_⟩
    rcases hprov with h1 | ⟨-, h2⟩
    · exact Or.inl h1
    · exact Or.inr h2

/-- Witness for C7 at the fixtures: the invariant holds of the `C6` entry of
the record extracted from the well-formed workbook. -/
theorem record_marks_invariant_witness :
    ∃ raw, fGoodW.cellVal ecfgW.studentWorksheetName "C6" = some raw ∧
      ((trimSpace raw = "" ∧ (⟨855, 1⟩ : Dec) = Dec.ofInt (-1)) ∨
        (0 ≤ (⟨855, 1⟩ : Dec).toRat ∧ (⟨855, 1⟩ : Dec).toRat ≤ 100)) :=
  record_marks_invariant ecfgW "good.xlsx" fGoodW sdGoodW (by decide)
    ("C6", ⟨855, 1⟩) (by decide)

/-! ## Claim C8: first-match locate semantics -/

/-- C8.  `FindStudentInMasterSheet` scans the rows top to bottom and returns
the 1-based index of the first row whose identifier cell (column B) equals
the given identifier after trimming and case-insensitive comparison; every
row after the first match — duplicates included — is shadowed and never
returned. -/
theorem locate_first_match (rows : List (List String)) (sid : String) :
    (∀ r, findStudentInMasterSheet rows sid = some r ↔
      ∃ i, i < rows.length ∧ r = i + 1 ∧ rowMatchesID sid (rows.getD i []) = true ∧
        ∀ j, j < i → rowMatchesID sid (rows.getD j []) = false) ∧
    (∀ i j, i < j → rowMatchesID sid (rows.getD i []) = true →
      findStudentInMasterSheet rows sid ≠ some (j + 1)) := by
  have hmain := findStudentAux_eq_some sid rows
  constructor
  · intro r
    rw [findStudentInMasterSheet, hmain 0 r]
    constructor
    · rintro ⟨i, h1, h2, h3, h4⟩; exact ⟨i, h1, by omega, h3, h4⟩
    · rintro ⟨i, h1, h2, h3, h4⟩; exact ⟨i, h1, by omega, h3, h4⟩
  · intro i j hij hmatch hcontra
    rw [findStudentInMasterSheet, hmain 0 (j + 1)] at hcontra
    obtain ⟨k, h1, h2, h3, h4⟩ := hcontra
    have hkj : k = j := by omega
    subst hkj
    have hfalse := h4 i hij
    rw [hmatch] at hfalse
    cases hfalse

/-- Witness for C8 at the fixtures: in rows holding `STU001` twice (rows 2
and 3), locate returns row 2 and never row 3. -/
theorem locate_first_match_witness :
    findStudentInMasterSheet rowsDupW "STU001" = some 2 ∧
      findStudentInMasterSheet rowsDupW "STU001" ≠ some 3 := by
  constructor
  · refine ((locate_first_match rowsDupW "STU001").1 2).mpr ⟨1, by decide, rfl, by decide, ?_⟩
    intro j hj
    interval_cases j
    decide
  · exact (locate_first_match rowsDupW "STU001").2 1 2 (by decide) (by decide)

/-! ## Claim C5: round-trip of extracted records through the merge -/

/-- The `i`-th pair of a zip is a member of the zip. -/
theorem mem_zip_of_lt {α β : Type} (l1 : List α) (l2 : List β) (d1 : α) (d2 : β) :
    ∀ i, i < l1.length → i < l2.length → (l1.getD i d1, l2.getD i d2) ∈ l1.zip l2 := by
  induction l1 generalizing l2 with
  | nil => intro i h1 _; cases h1
  | cons a l1 ih =>
    intro i h1 h2
    cases l2 with
    | nil => cases h2
    | cons b l2 =>
      cases i with
      | zero => simp
      | succ i =>
        have := ih l2 i (by simpa using h1) (by simpa using h2)
        simpa using Or.inr this

/-- Every member of a zip is the pair of entries at some common index. -/
theorem mem_zip_index {α β : Type} (l1 : List α) (l2 : List β) (p : α × β) (d1 : α) (d2 : β) :
    p ∈ l1.zip l2 → ∃ j, j < l1.length ∧ j < l2.length ∧
      p.1 = l1.getD j d1 ∧ p.2 = l2.getD j d2 := by
  induction l1 generalizing l2 with
  | nil => intro hp; simp at hp
  | cons a l1 ih =>
    intro hp
    cases l2 with
    | nil => simp at hp
    | cons b l2 =>
      rcases List.mem_cons.mp hp with rfl | hp'
      · exact ⟨0, by simp, by simp, rfl, rfl⟩
      · obtain ⟨j, hj1, hj2, he1, he2⟩ := ih l2 hp'
        exact ⟨j + 1, by simpa using hj1, by simpa using hj2, he1, he2⟩

/-- In a duplicate-free list, equal entries sit at equal indices. -/
theorem nodup_getD_inj {α : Type} (l : List α) (hl : l.Nodup) (d : α) (i j : ℕ)
    (hi : i < l.length) (hj : j < l.length) (h : l.getD i d = l.getD j d) : i = j := by
  rw [List.getD_eq_get l d hi, List.getD_eq_get l d hj] at h
  have := (List.Nodup.get_inj_iff hl).mp h
  exact congrArg Fin.val this

/-- C5.  Round-trip: merging a record extracted from a source into a master
that locates its identifier at row `r` writes, for every mapped pair
`(markCells[i], masterColumns[i])`, the present (non-negative) source value
into the cell `masterColumns[i] ++ r` at the fixed precision 2, and leaves
that cell exactly as it was when the source value is the absent sentinel. -/
theorem merge_round_trip (cfg : ExcelConfig) (path : String) (f : StudentFile)
    (sd : StudentData) (master : MasterFile) (r i : ℕ)
    (hread : readStudentData cfg path (some f) = .ok sd)
    (hws : master.sheetList.contains cfg.masterWorksheetName = true)
    (hfind : findStudentInMasterSheet master.rows sd.studentID = some r)
    (hnodup : cfg.masterColumns.Nodup)
    (hi : i < cfg.markCells.length) (hi2 : i < cfg.masterColumns.length) :
    ∃ master2 usum, batchUpdateMasterSheet cfg master [sd] = .ok (master2, usum) ∧
      (∀ m, assocGet sd.marks (cfg.markCells.getD i "") = some m → 0 ≤ m.toRat →
        assocGet master2.numCells (cfg.masterColumns.getD i "" ++ toString r) =
          some (m, 2)) ∧
      (assocGet sd.marks (cfg.markCells.getD i "") = some (Dec.ofInt (-1)) →
        assocGet master2.numCells (cfg.masterColumns.getD i "" ++ toString r) =
          assocGet master.numCells (cfg.masterColumns.getD i "" ++ toString r)) := by
  have h1 : (batchApplyAll cfg [sd] master {}).1 =
      (applyStudentMarks sd r (cfg.markCells.zip cfg.masterColumns) master).1 := by
    simp [batchApplyAll, hfind]
  have hmem : cfg.masterWorksheetName ∈ master.sheetList := by simpa using hws
  refine ⟨(batchApplyAll cfg [sd] master {}).1, (batchApplyAll cfg [sd] master {}).2,
    ?_, ?_, ?_⟩
  · simp [batchUpdateMasterSheet, hmem]
  · intro m hm hm0
    have hval : ∀ p ∈ cfg.markCells.zip cfg.masterColumns,
        p.2 ++ toString r = cfg.masterColumns.getD i "" ++ toString r →
        assocGet sd.marks p.1 = some m := by
      intro p hp hpa
      obtain ⟨j, hj1, hj2, he1, he2⟩ := mem_zip_index _ _ p "" "" hp
      have hcols : cfg.masterColumns.getD j "" = cfg.masterColumns.getD i "" :=
        string_append_cancel _ _ _ (by rw [← he2]; exact hpa)
      have hji : j = i := nodup_getD_inj _ hnodup "" j i hj2 hi2 hcols
      rw [he1, hji]
      exact hm
    have hneg : Dec.blt m (Dec.ofInt 0) = false := by
      rw [Dec.blt_eq_false_iff, Dec.ofInt_toRat]
      exact_mod_cast hm0
    rw [h1]
    exact applyStudentMarks_get_hit sd r m _ master _
      ⟨(cfg.markCells.getD i "", cfg.masterColumns.getD i ""),
        mem_zip_of_lt _ _ _ _ i hi hi2, rfl⟩
      hval hneg
  · intro hm
    have hno : ∀ p ∈ cfg.markCells.zip cfg.masterColumns,
        ¬ writesTo sd r p (cfg.masterColumns.getD i "" ++ toString r) := by
      rintro p hp ⟨hpa, m', hm', hneg'⟩
      obtain ⟨j, hj1, hj2, he1, he2⟩ := mem_zip_index _ _ p "" "" hp
      have hcols : cfg.masterColumns.getD j "" = cfg.masterColumns.getD i "" :=
        string_append_cancel _ _ _ (by rw [← he2]; exact hpa)
      have hji : j = i := nodup_getD_inj _ hnodup "" j i hj2 hi2 hcols
      rw [he1, hji, hm] at hm'
      have hm'' := Option.some.inj hm'
      rw [← hm''] at hneg'
      have : Dec.blt (Dec.ofInt (-1)) (Dec.ofInt 0) = true := by decide
      rw [this] at hneg'
      cases hneg'
    rw [h1]
    exact applyStudentMarks_get_frame sd r _ master _ hno

/-- Witness for C5 at the fixtures: merging the record extracted from
`fGoodW` into `masterW` (identifier located at row 2), for mapped pair 0
(`C6` to column `I`): the present value lands in `I2` at precision 2 and an
absent value would leave `I2` untouched. -/
theorem merge_round_trip_witness :
    ∃ master2 usum, batchUpdateMasterSheet ecfgW masterW [sdGoodW] = .ok (master2, usum) ∧
      (∀ m, assocGet sdGoodW.marks (ecfgW.markCells.getD 0 "") = some m → 0 ≤ m.toRat →
        assocGet master2.numCells (ecfgW.masterColumns.getD 0 "" ++ toString 2) =
          some (m, 2)) ∧
      (assocGet sdGoodW.marks (ecfgW.markCells.getD 0 "") = some (Dec.ofInt (-1)) →
        assocGet master2.numCells (ecfgW.masterColumns.getD 0 "" ++ toString 2) =
          assocGet masterW.numCells (ecfgW.masterColumns.getD 0 "" ++ toString 2)) :=
  merge_round_trip ecfgW "good.xlsx" fGoodW sdGoodW masterW 2 0 (by decide) (by decide)
    (by decide) (by decide) (by decide) (by decide)

/-! ## Claim C9: unmatched records warn and never abort the batch -/

/-- C9.  During batch apply, every record whose identifier is not located
increments `StudentsNotFound` and appends exactly one warning, the error list
stays untouched, and the batch is not aborted: the run returns `.ok` and the
final master equals the one obtained by applying exactly the locatable
records. -/
theorem batch_not_matched (cfg : ExcelConfig) (master : MasterFile)
    (sdl : List StudentData)
    (hws : master.sheetList.contains cfg.masterWorksheetName = true) :
    ∃ master2 usum, batchUpdateMasterSheet cfg master sdl = .ok (master2, usum) ∧
      usum.studentsNotFound = (sdl.filter (notLocated master.rows)).length ∧
      usum.warnings = (sdl.filter (notLocated master.rows)).map notFoundMessage ∧
      usum.errors = [] ∧
      master2 =
        (batchApplyAll cfg (sdl.filter (fun sd => !(notLocated master.rows sd)))
          master {}).1 := by
  have hmem : cfg.masterWorksheetName ∈ master.sheetList := by simpa using hws
  refine ⟨(batchApplyAll cfg sdl master {}).1, (batchApplyAll cfg sdl master {}).2,
    ?_, ?_, ?_, ?_, ?_⟩
  · simp [batchUpdateMasterSheet, hmem]
  · simpa using (batchApplyAll_notFound cfg sdl master {})
  · simpa using (batchApplyAll_warnings cfg sdl master {})
  · exact batchApplyAll_errors cfg sdl master {}
  · exact batchApplyAll_fst_filter cfg sdl master {} {}

/-- Witness for C9 at the fixtures: batching the `STU999` record (absent from
the master) together with the `STU001` record yields one not-found warning,
no errors, and the master produced by the located record alone. -/
theorem batch_not_matched_witness :
    ∃ master2 usum, batchUpdateMasterSheet ecfgW masterW [sdGhostW, sdGoodW] =
        .ok (master2, usum) ∧
      usum.studentsNotFound =
        (([sdGhostW, sdGoodW]).filter (notLocated masterW.rows)).length ∧
      usum.warnings =
        (([sdGhostW, sdGoodW]).filter (notLocated masterW.rows)).map notFoundMessage ∧
      usum.errors = [] ∧
      master2 =
        (batchApplyAll ecfgW
          (([sdGhostW, sdGoodW]).filter (fun sd => !(notLocated masterW.rows sd)))
          masterW {}).1 :=
  batch_not_matched ecfgW masterW [sdGhostW, sdGoodW] (by decide)

/-! ## Claim C1: the retry policy -/

/-- C1 counterexample.  A data-validation failure (malformed identifier
`230-491`) is retried: with `retryAttempts = 2` the reader is invoked twice,
with a one-second backoff sleep in between, although the claim says
validation failures are never retried (one attempt only). -/
theorem retry_policy_counterexample :
    (processFileWithRetries ecfgW pcfgW fsW "badid.xlsx").result =
        .failure (some (.idInvalidChars "230-491")) ∧
      (ExtractError.idInvalidChars "230-491").isValidationError = true ∧
      pcfgW.retryAttempts = 2 ∧
      (processFileWithRetries ecfgW pcfgW fsW "badid.xlsx").attempts = 2 ∧
      (processFileWithRetries ecfgW pcfgW fsW "badid.xlsx").sleeps = [1] := by
  decide

/-- C1 as amended.  The retry loop never looks at the failure's
classification: a first successful read returns after one attempt, and any
failing read — I/O or data-validation alike — is re-attempted the full
`retryAttempts` times, with a backoff delay equal to the attempt index in
seconds between consecutive attempts, reporting the last error. -/
theorem retry_policy_amended (ecfg : ExcelConfig) (pcfg : ProcessingConfig)
    (fs : String → Option StudentFile) (path : String)
    (hretry : 1 ≤ pcfg.retryAttempts) :
    (∀ sd, readStudentData ecfg path (fs path) = .ok sd →
      processFileWithRetries ecfg pcfg fs path = ⟨.success sd, 1, []⟩) ∧
    (∀ e, readStudentData ecfg path (fs path) = .error e →
      processFileWithRetries ecfg pcfg fs path =
        ⟨.failure (some e), pcfg.retryAttempts,
          List.range' 1 (pcfg.retryAttempts - 1)⟩) := by
  constructor
  · intro sd h
    exact retryGo_ok ecfg path (fs path) sd h pcfg.retryAttempts 1 none hretry
  · intro e h
    exact retryGo_error ecfg path (fs path) e h pcfg.retryAttempts hretry 1 none

/-- Witness for the amended C1 at the fixtures. -/
theorem retry_policy_amended_witness :
    processFileWithRetries ecfgW pcfgW fsW "badid.xlsx" =
      ⟨.failure (some (.idInvalidChars "230-491")), 2, [1]⟩ :=
  (retry_policy_amended ecfgW pcfgW fsW "badid.xlsx" (by decide)).2
    (.idInvalidChars "230-491") (by decide)

/-! ## Claim C2: every terminal failure leaves a summary message -/

/-- C2 counterexample.  A run over one file that fails to open, with
`SkipInvalidFiles` set, ends with a Skipped outcome and an entirely empty
`Errors`/`Warnings` — the skip left no message in the returned summary. -/
theorem failure_messages_counterexample :
    processFiles ecfgW pcfgSkipW fsW ["missing.xlsx"] masterW (fun _ => false)
        true true false =
      .ok ⟨{ totalFiles := 1, skippedFiles := 1 }, masterW, false, false⟩ := by
  decide

/-- C2 as amended.  In the extraction phase, every Failed file contributes
exactly one message to `Summary.Errors`, while Skipped files contribute no
message at all (the skip reason is only logged) and the phase never touches
`Summary.Warnings`. -/
theorem failure_messages_amended (ecfg : ExcelConfig) (pcfg : ProcessingConfig)
    (fs : String → Option StudentFile) (cancelled : ℕ → Bool) (files : List String) :
    (processFilesConcurrently ecfg pcfg fs cancelled files 0 ⟨[], {}⟩).summary.errors.length =
      (processFilesConcurrently ecfg pcfg fs cancelled files 0 ⟨[], {}⟩).summary.failedFiles ∧
    (processFilesConcurrently ecfg pcfg fs cancelled files 0 ⟨[], {}⟩).summary.warnings = [] := by
  obtain ⟨hw, he⟩ := processFilesConcurrently_messages ecfg pcfg fs cancelled files 0 ⟨[], {}⟩
  constructor
  · simpa using he
  · simpa using hw

/-! ## Claim C4: cancellation does not stop task admission (code bug) -/

/-- C4 (code bug).  The whole pipeline is oblivious to the cancellation
signal: `processFiles` produces identical results under any two cancellation
histories, because the `break` taken when `ctx.Done()` fires leaves only the
Go `select` statement, after which the loop admits the next task anyway.  The
spec's "no new tasks are admitted after cancellation" is the evident intent
of that dead branch. -/
theorem cancellation_ignored (ecfg : ExcelConfig) (pcfg : ProcessingConfig)
    (fs : String → Option StudentFile) (allPaths : List String) (master : MasterFile)
    (c c' : ℕ → Bool) (bs ss dryRun : Bool) :
    processFiles ecfg pcfg fs allPaths master c bs ss dryRun =
      processFiles ecfg pcfg fs allPaths master c' bs ss dryRun := by
  simp only [processFiles,
    processFilesConcurrently_cancel_indep ecfg pcfg fs (findExcelFiles allPaths) c c' 0
      ⟨[], {}⟩]

/-! ## Claim C10: a failed output-copy save is invisible in the summary -/

/-- C10.  Whether saving the timestamped output copy succeeds or fails
changes nothing but the `outputSaved` flag: the run still returns without
error and the summary — errors and warnings included — is identical, the
failure being only logged. -/
theorem save_copy_failure_invisible (ecfg : ExcelConfig) (pcfg : ProcessingConfig)
    (fs : String → Option StudentFile) (allPaths : List String) (master : MasterFile)
    (cancelled : ℕ → Bool) (bs dryRun : Bool) :
    processFiles ecfg pcfg fs allPaths master cancelled bs false dryRun =
      (processFiles ecfg pcfg fs allPaths master cancelled bs true dryRun).map
        (fun r => { r with outputSaved := false }) := by
  cases hv : validateMasterSheet ecfg master with
  | error e => simp [processFiles, hv, Except.map]
  | ok u =>
    simp only [processFiles, hv]
    by_cases hlen : (findExcelFiles allPaths).length = 0
    · simp [hlen, Except.map]
    · by_cases hbk : (pcfg.backupEnabled && !dryRun && !bs) = true
      · simp [hlen, hbk, Except.map]
      · by_cases hmerge :
            (!dryRun &&
              !(processFilesConcurrently ecfg pcfg fs cancelled (findExcelFiles allPaths) 0
                  ⟨[], {}⟩).studentDataList.isEmpty) = true
        · cases hbu : batchUpdateMasterSheet ecfg master
              (processFilesConcurrently ecfg pcfg fs cancelled (findExcelFiles allPaths) 0
                ⟨[], {}⟩).studentDataList with
          | error e => simp [hlen, hbk, hmerge, hbu, Except.map]
          | ok pr =>
            obtain ⟨m2, usum⟩ := pr
            simp [hlen, hbk, hmerge, hbu, Except.map]
        · simp [hlen, hbk, hmerge, Except.map]

/-! ## Claim C6: dry-run semantics -/

/-- C6.  In a dry run the backup step and the merge-and-save step are skipped
entirely: the master workbook is returned unchanged, no backup and no output
copy are written, and the per-file counters satisfy
`SuccessfulFiles + FailedFiles + SkippedFiles = TotalFiles`; extraction and
validation behave identically to a non-dry run, whose summary carries the
same four file counters. -/
theorem dry_run_frame (ecfg : ExcelConfig) (pcfg : ProcessingConfig)
    (fs : String → Option StudentFile) (allPaths : List String) (master : MasterFile)
    (cancelled : ℕ → Bool) (bs ss : Bool) (r : RunResult)
    (h : processFiles ecfg pcfg fs allPaths master cancelled bs ss true = .ok r) :
    r.master = master ∧ r.backupCreated = false ∧ r.outputSaved = false ∧
    r.summary.successfulFiles + r.summary.failedFiles + r.summary.skippedFiles =
      r.summary.totalFiles ∧
    (∀ bs' ss' r', processFiles ecfg pcfg fs allPaths master cancelled bs' ss' false = .ok r' →
      r'.summary.successfulFiles = r.summary.successfulFiles ∧
      r'.summary.failedFiles = r.summary.failedFiles ∧
      r'.summary.skippedFiles = r.summary.skippedFiles ∧
      r'.summary.totalFiles = r.summary.totalFiles) := by
  cases hv : validateMasterSheet ecfg master with
  | error e => simp [processFiles, hv] at h
  | ok u =>
    simp only [processFiles, hv, Bool.not_true, Bool.and_false, Bool.false_and,
      Bool.false_eq_true, if_false] at h
    by_cases hlen : (findExcelFiles allPaths).length = 0
    · rw [if_pos hlen] at h
      have hr := Except.ok.inj h
      refine ⟨by rw [← hr], by rw [← hr], by rw [← hr], by rw [← hr]; rfl, ?_⟩
      intro bs' ss' r' h'
      simp only [processFiles, hv] at h'
      rw [if_pos hlen] at h'
      have hr' := Except.ok.inj h'
      rw [← hr, ← hr']
      exact ⟨rfl, rfl, rfl, rfl⟩
    · rw [if_neg hlen] at h
      have hr := Except.ok.inj h
      have hcounts := processFilesConcurrently_counts ecfg pcfg fs cancelled
        (findExcelFiles allPaths) 0 ⟨[], {}⟩
      refine ⟨by rw [← hr], by rw [← hr], by rw [← hr], ?_, ?_⟩
      · rw [← hr]
        simpa using hcounts
      · intro bs' ss' r' h'
        simp only [processFiles, hv, Bool.not_false, Bool.and_true, Bool.true_and] at h'
        rw [if_neg hlen] at h'
        by_cases hbk' : (pcfg.backupEnabled && !bs') = true
        · rw [if_pos hbk'] at h'
          cases h'
        · rw [if_neg hbk'] at h'
          by_cases hmg : (!(processFilesConcurrently ecfg pcfg fs cancelled
              (findExcelFiles allPaths) 0 ⟨[], {}⟩).studentDataList.isEmpty) = true
          · rw [if_pos hmg] at h'
            cases hbu : batchUpdateMasterSheet ecfg master
                (processFilesConcurrently ecfg pcfg fs cancelled (findExcelFiles allPaths) 0
                  ⟨[], {}⟩).studentDataList with
            | error e =>
              rw [hbu] at h'
              cases h'
            | ok pr =>
              obtain ⟨m2, usum⟩ := pr
              rw [hbu] at h'
              have hr' := Except.ok.inj h'
              rw [← hr, ← hr']
              exact ⟨rfl, rfl, rfl, rfl⟩
          · rw [if_neg hmg] at h'
            have hr' := Except.ok.inj h'
            rw [← hr, ← hr']
            exact ⟨rfl, rfl, rfl, rfl⟩

/-- Witness for C6 at the fixtures: the dry run over the single well-formed
workbook leaves the master untouched, writes no artifacts, and its counters
add up. -/
theorem dry_run_frame_witness :
    (⟨{ totalFiles := 1, successfulFiles := 1 }, masterW, false, false⟩ : RunResult).master =
        masterW ∧
      (⟨{ totalFiles := 1, successfulFiles := 1 }, masterW, false, false⟩ :
        RunResult).backupCreated = false ∧
      (⟨{ totalFiles := 1, successfulFiles := 1 }, masterW, false, false⟩ :
        RunResult).outputSaved = false ∧
      ((⟨{ totalFiles := 1, successfulFiles := 1 }, masterW, false, false⟩ :
            RunResult).summary.successfulFiles +
          (⟨{ totalFiles := 1, successfulFiles := 1 }, masterW, false, false⟩ :
            RunResult).summary.failedFiles +
          (⟨{ totalFiles := 1, successfulFiles := 1 }, masterW, false, false⟩ :
            RunResult).summary.skippedFiles =
        (⟨{ totalFiles := 1, successfulFiles := 1 }, masterW, false, false⟩ :
          RunResult).summary.totalFiles) ∧
      (∀ bs' ss' r', processFiles ecfgW pcfgW fsW ["good.xlsx"] masterW (fun _ => false)
          bs' ss' false = .ok r' →
        r'.summary.successfulFiles =
            (⟨{ totalFiles := 1, successfulFiles := 1 }, masterW, false, false⟩ :
              RunResult).summary.successfulFiles ∧
          r'.summary.failedFiles =
            (⟨{ totalFiles := 1, successfulFiles := 1 }, masterW, false, false⟩ :
              RunResult).summary.failedFiles ∧
          r'.summary.skippedFiles =
            (⟨{ totalFiles := 1, successfulFiles := 1 }, masterW, false, false⟩ :
              RunResult).summary.skippedFiles ∧
          r'.summary.totalFiles =
            (⟨{ totalFiles := 1, successfulFiles := 1 }, masterW, false, false⟩ :
              RunResult).summary.totalFiles) :=
  dry_run_frame ecfgW pcfgW fsW ["good.xlsx"] masterW (fun _ => false) true true
    ⟨{ totalFiles := 1, successfulFiles := 1 }, masterW, false, false⟩ (by decide)

end MarkMaster
